import Mathlib

/-
  Verification of the tool-calling orchestration loop of
  `src/client/chatgpt_mcp_integration.py` (class `ChatGPTMCPIntegration`).

  Shallow embedding: the conversation history is a `List Turn`; the model
  provider, the MCP tool provider and `json.loads` are oracles collected in
  a `ChatEnv`; Python exceptions are threaded explicitly through `PyResult`.
  Every definition mirrors the corresponding Python statement for statement;
  external library calls (OpenAI completion, fastmcp `call_tool`,
  `json.loads`, `str()` on the tool result object) are the oracle fields.
-/

namespace MCPChat

/-- Python `Exception` values that can reach the orchestration loop:
`json.JSONDecodeError` raised by `json.loads` on malformed arguments,
`TypeError` (which `_execute_tool_call` retries on), and any other
`Exception` carrying its `str(e)` rendering. -/
inductive PyExn where
  | jsonDecodeError
  | typeError (msg : String)
  | otherError (msg : String)
  deriving Repr, DecidableEq

/-- Rendering `str(e)` of an exception. -/
def PyExn.toStr : PyExn → String
  | .jsonDecodeError => "Expecting value"
  | .typeError m => m
  | .otherError m => m

/-- Whether `except TypeError` catches this exception. -/
def PyExn.isTypeError : PyExn → Bool
  | .typeError _ => true
  | _ => false

/-- Result of running a Python expression: normal value or raised exception. -/
inductive PyResult (α : Type) where
  | ok (a : α)
  | exn (e : PyExn)
  deriving Repr, DecidableEq

/-- Decoded JSON object (`json.loads` result), modelled as a flat mapping;
only its identity is threaded through the loop, never inspected. -/
abbrev Args := List (String × String)

/-- The `function` member of a tool call emitted by the model:
`tool_call.function.name` and `tool_call.function.arguments`
(a JSON-encoded string, not yet decoded). -/
structure ToolCallFunction where
  name : String
  arguments : String
  deriving Repr, DecidableEq, Inhabited

/-- One tool-call request `tc` of `assistant_message.tool_calls`. -/
structure ToolCall where
  id : String
  type : String
  function : ToolCallFunction
  deriving Repr, DecidableEq, Inhabited

/-- One message dict of `self.conversation_history`. A field holding `none`
models the key being absent from the dict (for `content`, also the Python
`None` value, which the OpenAI message shape conflates with absence). -/
structure Turn where
  role : String
  content : Option String := none
  tool_call_id : Option String := none
  tool_calls : Option (List ToolCall) := none
  deriving Repr, DecidableEq, Inhabited

/-- The model's reply `response.choices[0].message`:
`content` may be `None`; `tool_calls` may be `None` or a list. -/
structure AssistantMsg where
  content : Option String
  tool_calls : Option (List ToolCall)
  deriving Repr, DecidableEq, Inhabited

/-- Python truthiness of `assistant_message.tool_calls`
(`None` and `[]` are falsy). -/
def truthyToolCalls : Option (List ToolCall) → Bool
  | none => false
  | some l => !l.isEmpty

/-- Python truthiness of an optional string (`None` and `""` are falsy),
used by `if system_prompt and not self.conversation_history`. -/
def truthyStr : Option String → Bool
  | none => false
  | some s => !(s == "")

/-- Python `x or d` for an optional string `x`,
used by `return assistant_message.content or ""`. -/
def pyStrOr (o : Option String) (d : String) : String :=
  match o with
  | none => d
  | some s => if s == "" then d else s

/-- Oracles for the external calls the loop makes.  `respond` is
`self.client.chat.completions.create` (a function of the message list the
call is given); `callToolDict` is `self.mcp_client.client.call_tool(name,
arguments=args)` and `callToolKwargs` is `call_tool(name, **args)`, each
already composed with `str(result)` on success; `loads` is `json.loads`,
`none` modelling a raised `json.JSONDecodeError` on malformed input. -/
structure ChatEnv where
  respond : List Turn → AssistantMsg
  callToolDict : String → Args → PyResult String
  callToolKwargs : String → Args → PyResult String
  loads : String → Option Args

/-- Embedding of `ChatGPTMCPIntegration._execute_tool_call` (lines 150-174):
try the dict-argument calling convention; on `TypeError`, retry with
keyword unpacking; any caught failure becomes the tagged error string
`"Error calling tool <name>: <str(e)>"`. -/
def _execute_tool_call (env : ChatEnv) (tool_name : String) (arguments : Args) :
    PyResult String :=
  match env.callToolDict tool_name arguments with
  | .ok result => .ok result
  | .exn e =>
    if e.isTypeError then
      match env.callToolKwargs tool_name arguments with
      | .ok result => .ok result
      | .exn e2 => .ok ("Error calling tool " ++ tool_name ++ ": " ++ e2.toStr)
    else
      .ok ("Error calling tool " ++ tool_name ++ ": " ++ e.toStr)

/-- The assistant message dict built at lines 222-238: `content` always
present; the `tool_calls` key included only when `assistant_message.tool_calls`
is truthy (the rebuilt per-call dicts carry the same `id`/`type`/`function`
fields, hence the same `ToolCall` values). -/
def mkAssistantTurn (am : AssistantMsg) : Turn :=
  { role := "assistant",
    content := am.content,
    tool_calls :=
      if truthyToolCalls am.tool_calls then some (am.tool_calls.getD []) else none }

/-- The tool-result message dict appended at lines 267-271. -/
def mkToolTurn (id_ : String) (result : String) : Turn :=
  { role := "tool", tool_call_id := some id_, content := some result }

/-- The `try/except` around `_execute_tool_call` at lines 256-264:
the result string, or `"Error executing tool: <str(e)>"` if it raised. -/
def toolResultText (env : ChatEnv) (tc : ToolCall) (args : Args) : String :=
  match _execute_tool_call env tc.function.name args with
  | .ok s => s
  | .exn e => "Error executing tool: " ++ e.toStr

/-- Embedding of the `for tool_call in assistant_message.tool_calls` loop
(lines 248-271).  For each call: `json.loads` the arguments string — this
sits OUTSIDE any `try`, so a decode failure raises out of the loop with the
history as accumulated so far — then execute the tool and append the tool
turn.  Returns the raised exception (if any) and the resulting history. -/
def execToolCalls (env : ChatEnv) : List ToolCall → List Turn → Option PyExn × List Turn
  | [], hist => (none, hist)
  | tc :: rest, hist =>
    match env.loads tc.function.arguments with
    | none => (some .jsonDecodeError, hist)
    | some args =>
      execToolCalls env rest (hist ++ [mkToolTurn tc.id (toolResultText env tc args)])

/-- The fixed budget-exhausted string returned at line 273. -/
def budgetMsg : String :=
  "Maximum iterations reached. Please try again with a simpler request."

/-- The `while iteration < max_iterations` loop of `chat` (lines 206-273),
with `fuel = max_iterations - iteration` (the loop body runs exactly
`max_iterations` times unless it returns or raises earlier).  Each pass:
ask the model, append the assistant turn, then either return its content
(no tool calls) or execute every tool call and continue. -/
def chatLoop (env : ChatEnv) : Nat → List Turn → PyResult String × List Turn
  | 0, hist => (.ok budgetMsg, hist)
  | fuel + 1, hist =>
    let am := env.respond hist
    let hist1 := hist ++ [mkAssistantTurn am]
    if truthyToolCalls am.tool_calls then
      match execToolCalls env (am.tool_calls.getD []) hist1 with
      | (some e, hist2) => (.exn e, hist2)
      | (none, hist2) => chatLoop env fuel hist2
    else
      (.ok (pyStrOr am.content ""), hist1)

/-- The user message dict appended at lines 201-204. -/
def userTurn (m : String) : Turn := { role := "user", content := some m }

/-- The system message dict appended at lines 194-198 (and by
`chat_streaming` at lines 291-295). -/
def systemTurn (s : Option String) : Turn := { role := "system", content := s }

/-- Seeding at lines 193-198: append the system turn iff a truthy system
prompt was supplied and the conversation history is empty. -/
def seedHist (hist : List Turn) (system_prompt : Option String) : List Turn :=
  if truthyStr system_prompt && hist.isEmpty then hist ++ [systemTurn system_prompt]
  else hist

/-- History on entry to the request loop: optional system seed, then the
user turn. -/
def entryHist (hist : List Turn) (system_prompt : Option String) (u : String) :
    List Turn :=
  seedHist hist system_prompt ++ [userTurn u]

/-- Embedding of `ChatGPTMCPIntegration.chat` (lines 176-273).  Takes the
conversation history the object holds on entry; returns the result (normal
string or propagated exception) together with the history the object holds
on exit — `self.conversation_history` is mutated in place, so turns
appended before a raise persist. -/
def chat (env : ChatEnv) (hist : List Turn) (user_message : String)
    (system_prompt : Option String) (max_iterations : Nat) :
    PyResult String × List Turn :=
  chatLoop env max_iterations (entryHist hist system_prompt user_message)

/-- Reset at lines 326-328: `self.conversation_history = []`. -/
def reset_conversation (_hist : List Turn) : List Turn := []

/-- Value-level reading of `get_conversation_history` (lines 330-337): the
returned list has the same turns in the same order (`.copy()`); the heap
model below (`PySession`) refines the copy/aliasing behaviour. -/
def get_conversation_history (hist : List Turn) : List Turn := hist

/-
  Streaming variant (`chat_streaming`, lines 275-324).

  The method is an async generator; its body runs only as far as the caller
  drives it with `next` calls.  We model the suspended computation as a
  machine state `GenSt` and one caller `next` call as `genNext`, which runs
  the body up to the next `yield` (returning the yielded fragment) or to
  completion (returning `none`, the `StopAsyncIteration`).  The commit of
  the assembled assistant turn (lines 319-324) happens only on the `next`
  call that runs past the last fragment; abandoning the generator earlier
  never executes it.  One stream chunk contributes the fragment
  `chunk.choices[0].delta.content`, skipped when falsy (`None` or `""`),
  per the guard at line 314.
-/

/-- Suspended state of one `chat_streaming` generator: the conversation
history so far, the stream chunks not yet consumed (each an optional delta
content), the `collected_messages` list, and whether the post-loop commit
has run. -/
structure GenSt where
  hist : List Turn
  pending : List (Option String)
  collected : List String
  committed : Bool
  deriving Repr, DecidableEq

/-- Run the generator body from a suspension inside the `async for` loop:
skip falsy chunks, stop at the first truthy content (collect and yield it),
or — when the stream is exhausted — join the collected fragments, append
the assistant turn, and finish. -/
def genNextAux (hist : List Turn) (collected : List String) :
    List (Option String) → Option String × GenSt
  | [] =>
    (none,
     { hist := hist ++ [{ role := "assistant", content := some (String.join collected) }],
       pending := [], collected := collected, committed := true })
  | c :: rest =>
    if truthyStr c then
      (some (c.getD ""),
       { hist := hist, pending := rest, collected := collected ++ [c.getD ""],
         committed := false })
    else
      genNextAux hist collected rest

/-- One caller `next` call on the generator (after completion it keeps
signalling exhaustion without touching the state). -/
def genNext (st : GenSt) : Option String × GenSt :=
  if st.committed then (none, st)
  else genNextAux st.hist st.collected st.pending

/-- Drive the generator with `n` caller `next` calls; stopping short models
the caller abandoning consumption. -/
def genDrive (st : GenSt) : Nat → GenSt
  | 0 => st
  | n + 1 => genDrive (genNext st).2 n

/-- The fragments a stream of chunks yields: the truthy delta contents, in
order (line 314's guard). -/
def streamFragments (chunks : List (Option String)) : List String :=
  chunks.filterMap (fun c => if truthyStr c then some (c.getD "") else none)

/-- Generator state of `chat_streaming hist user_message system_prompt` over
a stream delivering `chunks`, after the seeding of lines 291-301 (which the
generator performs before its first yield). -/
def chat_streaming_init (hist : List Turn) (user_message : String)
    (system_prompt : Option String) (chunks : List (Option String)) : GenSt :=
  { hist := entryHist hist system_prompt user_message,
    pending := chunks, collected := [], committed := false }

/-- The system turn `main.py`'s `reset_session` re-appends (lines 741-747). -/
def defaultSystemTurn (p : String) : Turn := { role := "system", content := some p }

/-- Embedding of `main.py` `reset_session` (lines 733-751): reset the
conversation, then append the default system prompt turn. -/
def reset_session (hist : List Turn) (p : String) : List Turn :=
  reset_conversation hist ++ [defaultSystemTurn p]

/-
  Heap model for `get_conversation_history` (lines 330-337).

  `self.conversation_history.copy()` is a SHALLOW copy: a fresh list object
  whose elements are the same message-dict references.  To state what a
  caller's mutations can and cannot affect, we model the Python heap
  explicitly: turn dicts live in `turnHeap` (addressed by index), list
  objects live in `listHeap` (each a list of turn addresses), and the
  session's `conversation_history` attribute is the list object at
  `convAddr`.
-/

/-- A session's reachable heap: turn objects, list objects (lists of turn
addresses) and the address of `self.conversation_history`. -/
structure PySession where
  turnHeap : List Turn
  listHeap : List (List Nat)
  convAddr : Nat
  deriving Repr, DecidableEq

/-- The conversation history a session observes: dereference its list
object, then each turn address. -/
def PySession.history (s : PySession) : List Turn :=
  (s.listHeap.getD s.convAddr []).map (fun a => s.turnHeap.getD a default)

/-- `get_conversation_history` in the heap model: allocate a fresh list
object holding the same turn addresses (`.copy()`), return its address. -/
def getHistoryAlloc (s : PySession) : Nat × PySession :=
  (s.listHeap.length,
   { s with listHeap := s.listHeap ++ [s.listHeap.getD s.convAddr []] })

/-- Caller mutation `lst[i] = ta` on the list object at `addr`. -/
def listSetElem (s : PySession) (addr i ta : Nat) : PySession :=
  { s with listHeap := s.listHeap.set addr ((s.listHeap.getD addr []).set i ta) }

/-- Caller mutation `lst.append(ta)` on the list object at `addr`. -/
def listAppendElem (s : PySession) (addr ta : Nat) : PySession :=
  { s with listHeap := s.listHeap.set addr ((s.listHeap.getD addr []) ++ [ta]) }

/-- Caller mutation `turn["content"] = c` on the turn object at `addr`. -/
def turnSetContent (s : PySession) (addr : Nat) (c : Option String) : PySession :=
  { s with
    turnHeap := s.turnHeap.set addr { s.turnHeap.getD addr default with content := c } }

/-
  Concrete environments used to instantiate the theorems below.
-/

/-- A tool call whose `arguments` string is well-formed for `loadsModel`. -/
def tcGood (i : String) : ToolCall :=
  { id := i, type := "function",
    function := { name := "execute_select_query", arguments := "\x7b\x7d" } }

/-- A tool call whose `arguments` string is malformed JSON. -/
def tcBad : ToolCall :=
  { id := "call_bad", type := "function",
    function := { name := "execute_select_query", arguments := "not json" } }

/-- A concrete instance of `json.loads` on the inputs exercised here:
decodes the well-formed empty-object text (the two characters `\x7b\x7d`)
to the empty mapping and raises (`none`) on anything else, as `json.loads`
does on malformed input such as `"not json"`. -/
def loadsModel (s : String) : Option Args :=
  if s == "\x7b\x7d" then some [] else none

/-- Model that always answers with two tool calls carrying decodable
arguments. -/
def envTwoCalls : ChatEnv :=
  { respond := fun _ => { content := none, tool_calls := some [tcGood "call_1", tcGood "call_2"] },
    callToolDict := fun _ _ => .ok "rows",
    callToolKwargs := fun _ _ => .ok "rows",
    loads := loadsModel }

/-- Model that always answers with one tool call whose arguments string is
malformed JSON. -/
def envBad : ChatEnv :=
  { respond := fun _ => { content := none, tool_calls := some [tcBad] },
    callToolDict := fun _ _ => .ok "rows",
    callToolKwargs := fun _ _ => .ok "rows",
    loads := loadsModel }

/-- Model that always answers with plain text and no tool calls. -/
def envPlain : ChatEnv :=
  { respond := fun _ => { content := some "done", tool_calls := none },
    callToolDict := fun _ _ => .ok "rows",
    callToolKwargs := fun _ _ => .ok "rows",
    loads := loadsModel }

/-- Tool provider whose first calling convention always fails with a
non-`TypeError` exception. -/
def envToolFails : ChatEnv :=
  { respond := fun _ => { content := none, tool_calls := some [tcGood "call_1"] },
    callToolDict := fun _ _ => .exn (.otherError "boom"),
    callToolKwargs := fun _ _ => .ok "rows",
    loads := loadsModel }

/-
  Shared lemmas about the orchestration loop.
-/

/-- Unfolding of one loop pass when the assistant turn carries no truthy
`tool_calls`: append the assistant turn and return its content. -/
theorem chatLoop_succ_no_tc (env : ChatEnv) (fuel : Nat) (hist : List Turn)
    (h : truthyToolCalls (env.respond hist).tool_calls = false) :
    chatLoop env (fuel + 1) hist
      = (.ok (pyStrOr (env.respond hist).content ""),
         hist ++ [mkAssistantTurn (env.respond hist)]) := by
  simp [chatLoop, h]

/-- Unfolding of one loop pass when the assistant turn carries truthy
`tool_calls`: append the assistant turn, run the tool calls, and either
propagate a raised exception or continue with the extended history. -/
theorem chatLoop_succ_tc (env : ChatEnv) (fuel : Nat) (hist : List Turn)
    (h : truthyToolCalls (env.respond hist).tool_calls = true) :
    chatLoop env (fuel + 1) hist
      = match execToolCalls env ((env.respond hist).tool_calls.getD [])
            (hist ++ [mkAssistantTurn (env.respond hist)]) with
        | (some e, hist2) => (.exn e, hist2)
        | (none, hist2) => chatLoop env fuel hist2 := by
  simp [chatLoop, h]

/-- The tool turn the loop appends for a request whose arguments decode. -/
def execTurnOf (env : ChatEnv) (tc : ToolCall) : Turn :=
  mkToolTurn tc.id (toolResultText env tc ((env.loads tc.function.arguments).getD []))

/-- When every request's arguments decode, the tool-call loop raises
nothing and appends exactly one tool turn per request, in request order. -/
theorem execToolCalls_ok (env : ChatEnv) (l : List ToolCall)
    (hdec : ∀ tc ∈ l, (env.loads tc.function.arguments).isSome) :
    ∀ hist, execToolCalls env l hist = (none, hist ++ l.map (execTurnOf env)) := by
  induction l with
  | nil => intro hist; simp [execToolCalls]
  | cons tc rest ih =>
    intro hist
    obtain ⟨args, hargs⟩ := Option.isSome_iff_exists.mp (hdec tc (by simp))
    have hrest : ∀ tc' ∈ rest, (env.loads tc'.function.arguments).isSome := by
      intro tc' h'; exact hdec tc' (by simp [h'])
    simp [execToolCalls, hargs, ih hrest, execTurnOf]

/-- C4: the tool invoker `_execute_tool_call` never raises — whatever the
provider call does under either calling convention, it returns a string;
and when the provider call fails (non-`TypeError` directly, or `TypeError`
followed by a failing keyword retry), the returned string is the error text
tagged with the tool's name. -/
theorem execute_tool_call_never_raises (env : ChatEnv) (tool_name : String)
    (args : Args) :
    (∃ s, _execute_tool_call env tool_name args = .ok s) ∧
    (∀ e, env.callToolDict tool_name args = .exn e → e.isTypeError = false →
      _execute_tool_call env tool_name args
        = .ok ("Error calling tool " ++ tool_name ++ ": " ++ e.toStr)) ∧
    (∀ e e2, env.callToolDict tool_name args = .exn e → e.isTypeError = true →
      env.callToolKwargs tool_name args = .exn e2 →
      _execute_tool_call env tool_name args
        = .ok ("Error calling tool " ++ tool_name ++ ": " ++ e2.toStr)) := by
  refine ⟨?_, ?_, ?_⟩
  · unfold _execute_tool_call
    cases hd : env.callToolDict tool_name args with
    | ok r => exact ⟨r, rfl⟩
    | exn e =>
      cases ht : e.isTypeError with
      | false => simp [ht]
      | true =>
        simp only [ht, if_true]
        cases hk : env.callToolKwargs tool_name args with
        | ok r => exact ⟨r, rfl⟩
        | exn e2 => exact ⟨_, rfl⟩
  · intro e hd ht
    simp [_execute_tool_call, hd, ht]
  · intro e e2 hd ht hk
    simp [_execute_tool_call, hd, ht, hk]

/-- Witness for C4: with a provider whose call raises a non-`TypeError`
exception, the invoker returns the tagged error string instead of raising. -/
theorem execute_tool_call_never_raises_witness :
    _execute_tool_call envToolFails "execute_select_query" []
      = .ok "Error calling tool execute_select_query: boom" :=
  (execute_tool_call_never_raises envToolFails "execute_select_query" []).2.1
    (.otherError "boom") rfl rfl

/-- C6: when the model's assistant turn carries no (truthy) tool calls,
`chat` returns the assistant content, and the empty string when that
content is `None`. -/
theorem chat_no_toolcalls_returns_content (env : ChatEnv) (hist : List Turn)
    (u : String) (sys : Option String) (m : Nat) (hm : 1 ≤ m)
    (hnt : truthyToolCalls (env.respond (entryHist hist sys u)).tool_calls = false) :
    (∀ c, (env.respond (entryHist hist sys u)).content = some c →
      (chat env hist u sys m).1 = .ok c) ∧
    ((env.respond (entryHist hist sys u)).content = none →
      (chat env hist u sys m).1 = .ok "") := by
  obtain ⟨k, rfl⟩ : ∃ k, m = k + 1 := ⟨m - 1, by omega⟩
  constructor
  · intro c hc
    rw [chat, chatLoop_succ_no_tc env k _ hnt]
    by_cases hce : c = ""
    · subst hce; simp [hc, pyStrOr]
    · simp [hc, pyStrOr, hce]
  · intro hc
    rw [chat, chatLoop_succ_no_tc env k _ hnt]
    simp [hc, pyStrOr]

/-- Witness for C6: a model answering plain text makes `chat` return that
text. -/
theorem chat_no_toolcalls_returns_content_witness :
    (chat envPlain [] "hola" none 10).1 = .ok "done" :=
  (chat_no_toolcalls_returns_content envPlain [] "hola" none 10 (by decide) rfl).1
    "done" rfl

/-- C2: when the assistant turn carries `k` tool calls with decodable
arguments, the loop pass appends exactly `k` tool turns — the image of the
request list under `execTurnOf`, hence one per request in request order —
each `tool_call_id` equal to its request's `id`, and the next model request
(the head of the recursive `chatLoop` call) sees all of them. -/
theorem chat_appends_k_tool_turns (env : ChatEnv) (hist : List Turn) (fuel : Nat)
    (l : List ToolCall)
    (hresp : (env.respond hist).tool_calls = some l) (hne : l ≠ [])
    (hdec : ∀ tc ∈ l, (env.loads tc.function.arguments).isSome) :
    chatLoop env (fuel + 1) hist
      = chatLoop env fuel
          (hist ++ [mkAssistantTurn (env.respond hist)] ++ l.map (execTurnOf env)) ∧
    (l.map (execTurnOf env)).length = l.length ∧
    (∀ i, i < l.length →
      ((l.map (execTurnOf env)).getD i default).tool_call_id
        = some ((l.getD i default).id)) := by
  have htr : truthyToolCalls (env.respond hist).tool_calls = true := by
    rw [hresp]
    cases l with
    | nil => cases hne rfl
    | cons a t => simp [truthyToolCalls]
  refine ⟨?_, by simp, ?_⟩
  · rw [chatLoop_succ_tc env fuel hist htr, hresp]
    simp only [Option.getD_some]
    rw [execToolCalls_ok env l hdec]
  · intro i hi
    have hi' : i < (l.map (execTurnOf env)).length := by simpa using hi
    rw [List.getD_eq_getElem _ _ hi', List.getD_eq_getElem _ _ hi, List.getElem_map]
    rfl

/-- Witness for C2: with two tool calls the pass appends their two tool
turns before the next request, the second carrying the second call's id. -/
theorem chat_appends_k_tool_turns_witness :
    chatLoop envTwoCalls 1 [userTurn "q"]
      = chatLoop envTwoCalls 0
          ([userTurn "q"] ++ [mkAssistantTurn (envTwoCalls.respond [userTurn "q"])]
            ++ [tcGood "call_1", tcGood "call_2"].map (execTurnOf envTwoCalls)) ∧
    (([tcGood "call_1", tcGood "call_2"].map (execTurnOf envTwoCalls)).getD 1
        default).tool_call_id = some "call_2" := by
  have h := chat_appends_k_tool_turns envTwoCalls [userTurn "q"] 0
    [tcGood "call_1", tcGood "call_2"] rfl (by decide) (by decide)
  exact ⟨h.1, by simpa [tcGood] using h.2.2 1 (by decide)⟩

/-- Count of assistant turns among the tool turns a pass appends: zero. -/
theorem countP_assistant_execTurns (env : ChatEnv) (l : List ToolCall) :
    List.countP (fun t => t.role == "assistant") (l.map (execTurnOf env)) = 0 := by
  induction l with
  | nil => rfl
  | cons tc rest ih => simp [execTurnOf, mkToolTurn, List.countP_cons, ih]

/-- When the model requests decodable tool calls on every iteration, the
loop consumes its whole fuel, returns the budget message, and appends one
assistant turn per fuel unit. -/
theorem chatLoop_budget (env : ChatEnv)
    (htc : ∀ h, truthyToolCalls (env.respond h).tool_calls = true)
    (hdec : ∀ h tc, tc ∈ ((env.respond h).tool_calls.getD []) →
      (env.loads tc.function.arguments).isSome) :
    ∀ (fuel : Nat) (hist : List Turn),
      (chatLoop env fuel hist).1 = .ok budgetMsg ∧
      List.countP (fun t => t.role == "assistant") (chatLoop env fuel hist).2
        = List.countP (fun t => t.role == "assistant") hist + fuel := by
  intro fuel
  induction fuel with
  | zero => intro hist; simp [chatLoop]
  | succ k ih =>
    intro hist
    rw [chatLoop_succ_tc env k hist (htc hist)]
    rw [execToolCalls_ok env _ (fun tc h => hdec hist tc h)]
    refine ⟨(ih _).1, ?_⟩
    rw [(ih _).2, List.countP_append, List.countP_append,
      countP_assistant_execTurns]
    simp [mkAssistantTurn, List.countP_cons]
    omega

/-- Seeding and the user turn add no assistant turns. -/
theorem countP_assistant_entryHist (hist : List Turn) (sys : Option String)
    (u : String) :
    List.countP (fun t => t.role == "assistant") (entryHist hist sys u)
      = List.countP (fun t => t.role == "assistant") hist := by
  unfold entryHist seedHist
  by_cases h : (truthyStr sys && hist.isEmpty) = true
  · simp [h, List.countP_append, systemTurn, userTurn, List.countP_cons]
  · simp [h, List.countP_append, userTurn, List.countP_cons]

/-- C3 (amended): for every model that on every iteration requests at least
one tool call, all of whose argument strings decode, `chat` returns the
fixed budget-exhausted string after exactly `max_iterations` iterations
(one appended assistant turn per model request counts the iterations). -/
theorem chat_budget_exhausted (env : ChatEnv) (hist : List Turn) (u : String)
    (sys : Option String) (m : Nat)
    (htc : ∀ h, truthyToolCalls (env.respond h).tool_calls = true)
    (hdec : ∀ h tc, tc ∈ ((env.respond h).tool_calls.getD []) →
      (env.loads tc.function.arguments).isSome) :
    (chat env hist u sys m).1 = .ok budgetMsg ∧
    List.countP (fun t => t.role == "assistant") (chat env hist u sys m).2
      = List.countP (fun t => t.role == "assistant") hist + m := by
  have h := chatLoop_budget env htc hdec m (entryHist hist sys u)
  refine ⟨h.1, ?_⟩
  calc List.countP (fun t => t.role == "assistant") (chat env hist u sys m).2
      = List.countP (fun t => t.role == "assistant") (entryHist hist sys u) + m :=
        h.2
    _ = List.countP (fun t => t.role == "assistant") hist + m := by
        rw [countP_assistant_entryHist]

/-- Counterexample to C3 as stated: `envBad` requests a tool call on every
iteration, yet with `max_iterations = 1` `chat` raises the JSON decode
error out of the loop instead of returning the budget-exhausted string. -/
theorem chat_budget_claim_counterexample :
    (chat envBad [] "q" none 1).1 = .exn .jsonDecodeError ∧
    (chat envBad [] "q" none 1).1 ≠ .ok budgetMsg := by decide

/-- Witness for amended C3: a model always requesting two decodable tool
calls, with `max_iterations = 1`, gets the budget message after one
iteration. -/
theorem chat_budget_exhausted_witness :
    (chat envTwoCalls [] "q" none 1).1 = .ok budgetMsg ∧
    List.countP (fun t => t.role == "assistant") (chat envTwoCalls [] "q" none 1).2
      = List.countP (fun t => t.role == "assistant") ([] : List Turn) + 1 :=
  chat_budget_exhausted envTwoCalls [] "q" none 1 (fun _ => rfl)
    (fun _ tc hm => by
      have h : tc = tcGood "call_1" ∨ tc = tcGood "call_2" := by
        simpa [envTwoCalls] using hm
      rcases h with h | h <;> subst h <;> rfl)

/-- Splitting the tool-call loop: a decodable block runs first and appends
its tool turns, then the loop continues on the remainder. -/
theorem execToolCalls_append (env : ChatEnv) (l1 r : List ToolCall)
    (hdec : ∀ tc ∈ l1, (env.loads tc.function.arguments).isSome) :
    ∀ hist, execToolCalls env (l1 ++ r) hist
      = execToolCalls env r (hist ++ l1.map (execTurnOf env)) := by
  induction l1 with
  | nil => intro hist; simp
  | cons tc rest ih =>
    intro hist
    obtain ⟨args, hargs⟩ := Option.isSome_iff_exists.mp (hdec tc (by simp))
    have hrest : ∀ tc' ∈ rest, (env.loads tc'.function.arguments).isSome := by
      intro tc' h'; exact hdec tc' (by simp [h'])
    simp [execToolCalls, hargs, ih hrest, execTurnOf]

/-- A call whose arguments string fails to decode raises immediately: no
tool turn is appended for it and the rest of the requests never run. -/
theorem execToolCalls_bad_head (env : ChatEnv) (tc : ToolCall) (l2 : List ToolCall)
    (hist : List Turn) (hbad : env.loads tc.function.arguments = none) :
    execToolCalls env (tc :: l2) hist = (some .jsonDecodeError, hist) := by
  simp [execToolCalls, hbad]

/-- C1 (amended): an argument-decoding failure is NOT caught per-call —
`json.loads` sits outside the `try`, so the `JSONDecodeError` propagates
out of `chat`; the history keeps the assistant turn and the tool turns of
the calls decoded earlier in the same assistant turn, but no tool turn
(error-text or otherwise) is appended for the failing call, and the loop
does not continue. -/
theorem chat_malformed_arguments_raise (env : ChatEnv) (hist : List Turn)
    (u : String) (sys : Option String) (m : Nat) (hm : 1 ≤ m)
    (l1 l2 : List ToolCall) (tc : ToolCall)
    (hresp : (env.respond (entryHist hist sys u)).tool_calls = some (l1 ++ tc :: l2))
    (hdec1 : ∀ tc' ∈ l1, (env.loads tc'.function.arguments).isSome)
    (hbad : env.loads tc.function.arguments = none) :
    chat env hist u sys m
      = (.exn .jsonDecodeError,
         entryHist hist sys u
           ++ [mkAssistantTurn (env.respond (entryHist hist sys u))]
           ++ l1.map (execTurnOf env)) := by
  obtain ⟨k, rfl⟩ : ∃ k, m = k + 1 := ⟨m - 1, by omega⟩
  have htr : truthyToolCalls (env.respond (entryHist hist sys u)).tool_calls
      = true := by
    rw [hresp]; cases l1 <;> simp [truthyToolCalls]
  rw [chat, chatLoop_succ_tc env k _ htr, hresp]
  simp only [Option.getD_some]
  rw [execToolCalls_append env l1 (tc :: l2) hdec1,
    execToolCalls_bad_head env tc l2 _ hbad]

/-- Counterexample to C1 as stated: with a model whose single tool call
carries malformed JSON arguments, `chat` raises the decode error out of the
loop and the final history contains no tool turn at all — the failure was
not converted into an error-text tool turn and the loop did not continue. -/
theorem chat_decode_failure_not_caught :
    (chat envBad [] "hi" none 10).1 = .exn .jsonDecodeError ∧
    (∀ t ∈ (chat envBad [] "hi" none 10).2, t.role ≠ "tool") := by decide

/-- Witness for amended C1: the malformed single-call model makes `chat`
raise with only the assistant turn (and no tool turns) appended. -/
theorem chat_malformed_arguments_raise_witness :
    chat envBad [] "hi" none 10
      = (.exn .jsonDecodeError,
         entryHist [] none "hi"
           ++ [mkAssistantTurn (envBad.respond (entryHist [] none "hi"))]
           ++ ([] : List ToolCall).map (execTurnOf envBad)) :=
  chat_malformed_arguments_raise envBad [] "hi" none 10 (by decide) [] [] tcBad
    rfl (by decide) rfl

/-- One `chat` call per user message, no system prompt, same budget each
time (the iterated sessions of the history-growth property). -/
def chatCalls (env : ChatEnv) (m : Nat) (msgs : List String) (hist : List Turn) :
    List Turn :=
  msgs.foldl (fun h u => (chat env h u none m).2) hist

/-- C5 (amended): when no call seeds a system prompt and the budget allows
at least one iteration, `N` completed `chat` calls in which the model
returns no tool calls grow the history by exactly `2N` — one user and one
assistant turn per call.  (A call passing a truthy system prompt to an
empty history appends one extra system turn; see the counterexample.) -/
theorem history_growth_no_toolcalls (env : ChatEnv) (m : Nat) (hm : 1 ≤ m)
    (hnt : ∀ h, truthyToolCalls (env.respond h).tool_calls = false)
    (msgs : List String) :
    ∀ hist, (chatCalls env m msgs hist).length = hist.length + 2 * msgs.length := by
  induction msgs with
  | nil => intro hist; simp [chatCalls]
  | cons u rest ih =>
    intro hist
    obtain ⟨k, hk⟩ : ∃ k, m = k + 1 := ⟨m - 1, by omega⟩
    have hone : (chat env hist u none m).2
        = entryHist hist none u
            ++ [mkAssistantTurn (env.respond (entryHist hist none u))] := by
      subst hk
      rw [chat, chatLoop_succ_no_tc env k _ (hnt _)]
    have hstep : chatCalls env m (u :: rest) hist
        = chatCalls env m rest ((chat env hist u none m).2) := rfl
    rw [hstep, ih, hone]
    simp [entryHist, seedHist, truthyStr]
    omega

/-- Counterexample to C5 as stated: one completed call on a fresh session
with a system prompt and no tool calls leaves 3 turns (system, user,
assistant), not `initial + 2·1 = 2`. -/
theorem history_growth_counterexample :
    ((chat envPlain [] "hola" (some "You are helpful") 10).2).length = 3 ∧
    ((chat envPlain [] "hola" (some "You are helpful") 10).2).length ≠ 0 + 2 * 1 := by
  decide

/-- Witness for amended C5: two calls with no system prompt grow an empty
history to exactly 4 turns. -/
theorem history_growth_no_toolcalls_witness :
    (chatCalls envPlain 10 ["a", "b"] []).length
      = ([] : List Turn).length + 2 * (["a", "b"].length) :=
  history_growth_no_toolcalls envPlain 10 (by decide) (fun _ => rfl) ["a", "b"] []

/-- C8: `reset_conversation` followed by `get_conversation_history` yields
the empty sequence, and after `main.py`'s `reset_session` re-seeds the
default system prompt, it yields exactly that one system turn. -/
theorem reset_then_history (hist : List Turn) (p : String) :
    get_conversation_history (reset_conversation hist) = [] ∧
    get_conversation_history (reset_session hist p) = [defaultSystemTurn p] :=
  ⟨rfl, rfl⟩

/-- A generator that has committed its assistant turn is exhausted: further
`next` calls leave the state alone. -/
theorem genDrive_committed (hist : List Turn) (pending : List (Option String))
    (collected : List String) :
    ∀ n, genDrive ⟨hist, pending, collected, true⟩ n
      = ⟨hist, pending, collected, true⟩ := by
  intro n
  induction n with
  | zero => rfl
  | succ k ih => simpa [genDrive, genNext] using ih

/-- Behaviour of a live generator under `n` caller `next` calls: as long as
at most the pending fragments have been requested, the history is untouched
and the commit has not run; one `next` call beyond the last fragment runs
the commit, appending the single assistant turn holding the join of all
fragments. -/
theorem genDrive_spec :
    ∀ (n : Nat) (pending : List (Option String)) (collected : List String)
      (hist : List Turn),
      (n ≤ (streamFragments pending).length →
        ∃ p c, genDrive ⟨hist, pending, collected, false⟩ n = ⟨hist, p, c, false⟩ ∧
          c ++ streamFragments p = collected ++ streamFragments pending) ∧
      ((streamFragments pending).length < n →
        genDrive ⟨hist, pending, collected, false⟩ n
          = ⟨hist ++
              [{ role := "assistant",
                 content := some (String.join (collected ++ streamFragments pending)) }],
             [], collected ++ streamFragments pending, true⟩) := by
  intro n
  induction n with
  | zero =>
    intro pending collected hist
    exact ⟨fun _ => ⟨pending, collected, rfl, rfl⟩, fun h => absurd h (by omega)⟩
  | succ k ih =>
    intro pending collected hist
    induction pending with
    | nil =>
      refine ⟨fun hle => absurd hle (by simp [streamFragments]), fun _ => ?_⟩
      have h1 : (genNext ⟨hist, [], collected, false⟩).2
          = ⟨hist ++
              [{ role := "assistant",
                 content := some (String.join collected) }],
             [], collected, true⟩ := rfl
      simp [genDrive, h1, genDrive_committed, streamFragments]
    | cons c rest ihp =>
      cases hc : truthyStr c with
      | false =>
        have hskip : genNext ⟨hist, c :: rest, collected, false⟩
            = genNext ⟨hist, rest, collected, false⟩ := by
          simp [genNext, genNextAux, hc]
        have hfr : streamFragments (c :: rest) = streamFragments rest := by
          simp [streamFragments, hc]
        have hdr : genDrive ⟨hist, c :: rest, collected, false⟩ (k + 1)
            = genDrive ⟨hist, rest, collected, false⟩ (k + 1) := by
          show genDrive (genNext ⟨hist, c :: rest, collected, false⟩).2 k
            = genDrive ⟨hist, rest, collected, false⟩ (k + 1)
          rw [hskip]; rfl
        rw [hfr, hdr]
        exact ihp
      | true =>
        have hyield : (genNext ⟨hist, c :: rest, collected, false⟩).2
            = ⟨hist, rest, collected ++ [c.getD ""], false⟩ := by
          simp [genNext, genNextAux, hc]
        have hfr : streamFragments (c :: rest)
            = c.getD "" :: streamFragments rest := by
          simp [streamFragments, hc]
        have hdr : genDrive ⟨hist, c :: rest, collected, false⟩ (k + 1)
            = genDrive ⟨hist, rest, collected ++ [c.getD ""], false⟩ k := by
          show genDrive (genNext ⟨hist, c :: rest, collected, false⟩).2 k = _
          rw [hyield]
        constructor
        · intro hle
          rw [hfr] at hle
          obtain ⟨p, cc, heq, hsum⟩ :=
            (ih rest (collected ++ [c.getD ""]) hist).1 (by simpa using hle)
          refine ⟨p, cc, by rw [hdr, heq], ?_⟩
          rw [hsum, hfr]
          simp
        · intro hlt
          rw [hfr] at hlt
          have h2 := (ih rest (collected ++ [c.getD ""]) hist).2 (by simpa using hlt)
          rw [hdr, h2, hfr]
          simp

/-- C7: `chat_streaming` commits the assistant turn — a single turn whose
content is the concatenation of all yielded fragments — only when the
caller drives the generator past the last fragment; a caller that abandons
consumption at or before the last fragment leaves the history exactly as
seeded (system/user turns only), with no partial assistant turn. -/
theorem chat_streaming_commit_only_after_drain (hist : List Turn) (u : String)
    (sys : Option String) (chunks : List (Option String)) (n : Nat) :
    (n ≤ (streamFragments chunks).length →
      (genDrive (chat_streaming_init hist u sys chunks) n).hist
        = entryHist hist sys u) ∧
    ((streamFragments chunks).length < n →
      (genDrive (chat_streaming_init hist u sys chunks) n).hist
        = entryHist hist sys u
            ++ [{ role := "assistant",
                  content := some (String.join (streamFragments chunks)) }]) := by
  have hinit : chat_streaming_init hist u sys chunks
      = ⟨entryHist hist sys u, chunks, [], false⟩ := rfl
  have h := genDrive_spec n chunks [] (entryHist hist sys u)
  constructor
  · intro hle
    obtain ⟨p, c, heq, _⟩ := h.1 hle
    rw [hinit, heq]
  · intro hlt
    rw [hinit, h.2 hlt]
    simp

/-- Witness for C7: over a 2-fragment stream, abandoning after 1 fragment
leaves only the user turn; draining (9 `next` calls) commits the single
assistant turn carrying the fragments' concatenation. -/
theorem chat_streaming_commit_only_after_drain_witness :
    (genDrive (chat_streaming_init [] "hi" none [some "He", none, some "llo"]) 1).hist
      = entryHist [] none "hi" ∧
    (genDrive (chat_streaming_init [] "hi" none [some "He", none, some "llo"]) 9).hist
      = entryHist [] none "hi"
          ++ [{ role := "assistant",
                content := some (String.join
                  (streamFragments [some "He", none, some "llo"])) }] :=
  ⟨(chat_streaming_commit_only_after_drain [] "hi" none
      [some "He", none, some "llo"] 1).1 (by decide),
   (chat_streaming_commit_only_after_drain [] "hi" none
      [some "He", none, some "llo"] 9).2 (by decide)⟩

/-- Invariant of the conversation history: an assistant turn either omits
the `tool_calls` key (`none`) or carries a non-empty request list — never
`some []`. -/
def histInv (hist : List Turn) : Prop :=
  ∀ t ∈ hist, t.role = "assistant" → t.tool_calls ≠ some []

theorem histInv_append {h1 h2 : List Turn} (a : histInv h1) (b : histInv h2) :
    histInv (h1 ++ h2) := by
  intro t ht
  rcases List.mem_append.mp ht with h | h
  exacts [a t h, b t h]

/-- A single turn whose role is not `assistant` satisfies the invariant. -/
theorem histInv_single_nonassistant (t : Turn) (h : t.role ≠ "assistant") :
    histInv [t] := by
  intro t' ht' hrole
  simp only [List.mem_singleton] at ht'
  subst ht'
  exact absurd hrole h

/-- The assistant turn the loop builds satisfies the invariant: the
`tool_calls` key is included only when the request list is non-empty. -/
theorem histInv_mkAssistantTurn (am : AssistantMsg) :
    histInv [mkAssistantTurn am] := by
  intro t ht _
  simp only [List.mem_singleton] at ht
  subst ht
  cases htr : truthyToolCalls am.tool_calls with
  | false => simp [mkAssistantTurn, htr]
  | true =>
    cases hl : am.tool_calls with
    | none => rw [hl] at htr; simp [truthyToolCalls] at htr
    | some l =>
      rw [hl] at htr
      have hne : l ≠ [] := by
        intro hnil
        rw [hnil] at htr
        simp [truthyToolCalls] at htr
      have hmk : (mkAssistantTurn am).tool_calls = some l := by
        simp [mkAssistantTurn, hl, htr]
      rw [hmk]
      intro hcon
      exact hne (Option.some.inj hcon)

/-- The tool-call loop preserves the invariant (it appends only `tool`
turns, or raises leaving the history as accumulated). -/
theorem execToolCalls_histInv (env : ChatEnv) :
    ∀ (l : List ToolCall) (hist : List Turn), histInv hist →
      histInv (execToolCalls env l hist).2 := by
  intro l
  induction l with
  | nil => intro hist h; simpa [execToolCalls] using h
  | cons tc rest ih =>
    intro hist h
    cases hl : env.loads tc.function.arguments with
    | none => simpa [execToolCalls, hl] using h
    | some args =>
      have hstep : execToolCalls env (tc :: rest) hist
          = execToolCalls env rest
              (hist ++ [mkToolTurn tc.id (toolResultText env tc args)]) := by
        simp [execToolCalls, hl]
      rw [hstep]
      exact ih _ (histInv_append h
        (histInv_single_nonassistant _ (by simp [mkToolTurn])))

/-- The orchestration loop preserves the invariant through every pass,
including the exception path. -/
theorem chatLoop_histInv (env : ChatEnv) :
    ∀ (fuel : Nat) (hist : List Turn), histInv hist →
      histInv (chatLoop env fuel hist).2 := by
  intro fuel
  induction fuel with
  | zero => intro hist h; simpa [chatLoop] using h
  | succ k ih =>
    intro hist h
    have h1 : histInv (hist ++ [mkAssistantTurn (env.respond hist)]) :=
      histInv_append h (histInv_mkAssistantTurn _)
    cases htc : truthyToolCalls (env.respond hist).tool_calls with
    | false =>
      rw [chatLoop_succ_no_tc env k hist htc]
      exact h1
    | true =>
      rw [chatLoop_succ_tc env k hist htc]
      have h2 := execToolCalls_histInv env ((env.respond hist).tool_calls.getD [])
        _ h1
      rcases hex : execToolCalls env ((env.respond hist).tool_calls.getD [])
          (hist ++ [mkAssistantTurn (env.respond hist)]) with ⟨oe, hist2⟩
      rw [hex] at h2
      cases oe with
      | some e => exact h2
      | none => exact ih hist2 h2

/-- One generator `next` call preserves the invariant: the only turn it can
append is the committed assistant turn, which omits `tool_calls`. -/
theorem genNextAux_histInv (hist : List Turn) (collected : List String) :
    ∀ pending, histInv hist → histInv (genNextAux hist collected pending).2.hist := by
  intro pending
  induction pending with
  | nil =>
    intro h
    exact histInv_append h (by
      intro t ht _
      simp only [List.mem_singleton] at ht
      subst ht
      simp)
  | cons c rest ih =>
    intro h
    cases hc : truthyStr c with
    | false => simpa [genNextAux, hc] using ih h
    | true => simpa [genNextAux, hc] using h

/-- Driving the streaming generator any number of steps preserves the
invariant. -/
theorem genDrive_histInv :
    ∀ (n : Nat) (st : GenSt), histInv st.hist → histInv (genDrive st n).hist := by
  intro n
  induction n with
  | zero => intro st h; exact h
  | succ k ih =>
    intro st h
    have hstep : genDrive st (k + 1) = genDrive (genNext st).2 k := rfl
    rw [hstep]
    refine ih _ ?_
    rcases st with ⟨hist, pending, collected, committed⟩
    cases committed with
    | true => exact h
    | false => exact genNextAux_histInv hist collected pending h

/-- C10: every operation keeps the invariant that an assistant turn in the
history either omits `tool_calls` or carries a non-empty request list:
`chat` (any model behaviour, any budget, including the raising path), any
partial or complete run of `chat_streaming`, and `reset_conversation`. -/
theorem assistant_turns_never_empty_toolcalls (env : ChatEnv) (hist : List Turn)
    (u : String) (sys : Option String) (m : Nat) (chunks : List (Option String))
    (n : Nat) (h : histInv hist) :
    histInv (chat env hist u sys m).2 ∧
    histInv (genDrive (chat_streaming_init hist u sys chunks) n).hist ∧
    histInv (reset_conversation hist) := by
  have hseed : histInv (seedHist hist sys) := by
    unfold seedHist
    by_cases hc : (truthyStr sys && hist.isEmpty) = true
    · rw [if_pos hc]
      exact histInv_append h (histInv_single_nonassistant _ (by simp [systemTurn]))
    · rw [if_neg hc]; exact h
  have hentry : histInv (entryHist hist sys u) :=
    histInv_append hseed (histInv_single_nonassistant _ (by simp [userTurn]))
  refine ⟨chatLoop_histInv env m _ hentry, genDrive_histInv n _ hentry, ?_⟩
  intro t ht
  simp [reset_conversation] at ht

/-- Witness for C10: concrete runs of all three operations keep the
invariant from an empty history. -/
theorem assistant_turns_never_empty_toolcalls_witness :
    histInv (chat envTwoCalls [] "q" none 2).2 ∧
    histInv (genDrive (chat_streaming_init [] "q" none [some "x"]) 3).hist ∧
    histInv (reset_conversation []) :=
  assistant_turns_never_empty_toolcalls envTwoCalls [] "q" none 2 [some "x"] 3
    (by intro t ht; simp at ht)

/-- `getD` looks left of an append when the index is in range. -/
theorem listGetD_append_left {α : Type} (l1 l2 : List α) (i : Nat) (d : α)
    (h : i < l1.length) : (l1 ++ l2).getD i d = l1.getD i d := by
  induction l1 generalizing i with
  | nil => simp at h
  | cons a t ih =>
    cases i with
    | zero => rfl
    | succ j =>
      have hj : j < t.length := by simpa using h
      simpa [List.getD] using ih j hj

/-- `getD` at an index other than the one being set is unchanged. -/
theorem listGetD_set_ne {α : Type} (l : List α) (i j : Nat) (a d : α)
    (h : i ≠ j) : (l.set i a).getD j d = l.getD j d := by
  induction l generalizing i j with
  | nil => rfl
  | cons b t ih =>
    cases i with
    | zero =>
      cases j with
      | zero => exact absurd rfl h
      | succ k => rfl
    | succ i' =>
      cases j with
      | zero => rfl
      | succ j' =>
        have h' : i' ≠ j' := fun hh => h (by rw [hh])
        simpa [List.getD] using ih i' j' h'

/-- `getD` at the old length of a one-element append reads that element. -/
theorem listGetD_append_length {α : Type} (l : List α) (x d : α) :
    (l ++ [x]).getD l.length d = x := by
  induction l with
  | nil => rfl
  | cons a t ih => exact ih

/-- Concrete one-turn session for the aliasing counterexample. -/
def sess0 : PySession :=
  { turnHeap := [{ role := "user", content := some "hola" }],
    listHeap := [[0]], convAddr := 0 }

/-- Counterexample to C9 as stated: after `get_conversation_history`, the
caller mutates the content of the turn object reached through the returned
copy, and the session's own history changes with it — `.copy()` is shallow,
so the contained turns are live references, not copies. -/
theorem getHistory_not_a_deep_copy :
    PySession.history sess0 = [{ role := "user", content := some "hola" }] ∧
    PySession.history
        (turnSetContent (getHistoryAlloc sess0).2
          (((getHistoryAlloc sess0).2.listHeap.getD (getHistoryAlloc sess0).1
              []).getD 0 0)
          (some "tampered"))
      = [{ role := "user", content := some "tampered" }] := by
  decide

/-- C9 (amended): `get_conversation_history` returns a fresh list object —
mutating the returned sequence itself (element assignment or append) leaves
the session's history unchanged — but the list is a shallow copy: it holds
the very same turn references as the session's own list, so in-place
mutation of a contained turn is visible in the session's history (see the
counterexample). -/
theorem getHistory_shallow_copy (s : PySession) (i ta ta' : Nat)
    (h : s.convAddr < s.listHeap.length) :
    PySession.history (listSetElem (getHistoryAlloc s).2 (getHistoryAlloc s).1 i ta)
      = PySession.history s ∧
    PySession.history (listAppendElem (getHistoryAlloc s).2 (getHistoryAlloc s).1 ta')
      = PySession.history s ∧
    (getHistoryAlloc s).2.listHeap.getD (getHistoryAlloc s).1 []
      = s.listHeap.getD s.convAddr [] := by
  have hne : s.listHeap.length ≠ s.convAddr := by omega
  refine ⟨?_, ?_, ?_⟩
  · unfold PySession.history listSetElem getHistoryAlloc
    simp only
    rw [listGetD_set_ne _ _ _ _ _ hne, listGetD_append_left _ _ _ _ h]
  · unfold PySession.history listAppendElem getHistoryAlloc
    simp only
    rw [listGetD_set_ne _ _ _ _ _ hne, listGetD_append_left _ _ _ _ h]
  · unfold getHistoryAlloc
    simp only
    exact listGetD_append_length _ _ _

/-- Witness for amended C9: on the one-turn session, sequence-level
mutations of the returned copy leave the session history unchanged, and the
copy holds the session's own turn references. -/
theorem getHistory_shallow_copy_witness :
    PySession.history (listSetElem (getHistoryAlloc sess0).2 (getHistoryAlloc sess0).1 0 5)
      = PySession.history sess0 ∧
    PySession.history (listAppendElem (getHistoryAlloc sess0).2 (getHistoryAlloc sess0).1 5)
      = PySession.history sess0 ∧
    (getHistoryAlloc sess0).2.listHeap.getD (getHistoryAlloc sess0).1 []
      = sess0.listHeap.getD sess0.convAddr [] :=
  getHistory_shallow_copy sess0 0 5 5 (by decide)

end MCPChat
